import Mathlib

/-!
# Verification of the watcher-service change-detection pipeline

A shallow embedding, in Lean 4, of the core of the `watcher-service-backend`
repository: the ignore policy, the snapshot store and unified-diff engine of
`src/watcher/file_watcher.py`, and the delivery logic of
`src/processor/change_processor.py`.  Python strings are modelled as Lean
`String` (with explicit char-list models of `split`, `join`, `startswith`,
`in` and `Path.suffix`), Python dictionaries as association lists, and the
network/filesystem environment as explicit parameters (the outcome of each
HTTP attempt, the content read from disk, the content of a path at `HEAD`).
All definitions are executable.
-/

/-! ## String utilities (models of the Python string operations used) -/

/-- Model of Python `str.startswith`: char-list prefix test. -/
def strStartsWith (s pre : String) : Bool :=
  pre.data.isPrefixOf s.data

/-- Model of the Python substring test `needle in hay`. -/
def strContains (hay needle : String) : Bool :=
  hay.data.tails.any (fun t => needle.data.isPrefixOf t)

/-- Split a char list at every occurrence of `sep` (model of `str.split`).
`splitCharList sep [] = [[]]`, matching Python's `"".split(sep) == ['']`. -/
def splitCharList (sep : Char) : List Char → List (List Char)
  | [] => [[]]
  | c :: cs =>
    let r := splitCharList sep cs
    if c = sep then [] :: r
    else
      match r with
      | [] => [[c]]
      | h :: t => (c :: h) :: t

/-- Join char lists with a separator char (model of `sep.join`). -/
def joinWithChar (sep : Char) : List (List Char) → List Char
  | [] => []
  | [cs] => cs
  | cs :: rest => cs ++ sep :: joinWithChar sep rest

/-- Model of Python `s.split('\n')`. -/
def pySplitLines (s : String) : List String :=
  (splitCharList '\n' s.data).map (fun l => ⟨l⟩)

/-- Model of Python `'\n'.join(lines)`. -/
def pyJoinLines (lines : List String) : String :=
  ⟨joinWithChar '\n' (lines.map String.data)⟩

/-- Decimal digit character (used by the model of `str(n)`). -/
def digitCh (m : Nat) : Char :=
  match m with
  | 0 => '0' | 1 => '1' | 2 => '2' | 3 => '3' | 4 => '4'
  | 5 => '5' | 6 => '6' | 7 => '7' | 8 => '8' | _ => '9'

/-- Fuelled accumulator loop printing a natural number in decimal. -/
def natToCharsGo : Nat → Nat → List Char → List Char
  | 0, _, acc => acc
  | fuel + 1, n, acc =>
    let d := digitCh (n % 10)
    if n < 10 then d :: acc else natToCharsGo fuel (n / 10) (d :: acc)

/-- Model of Python `str(n)` for a natural number. -/
def natToStr (n : Nat) : String :=
  ⟨natToCharsGo (n + 1) n []⟩

/-- Rightmost index of a character in a char list (model of `str.rfind`). -/
def rfindChar (c : Char) (cs : List Char) : Option Nat :=
  match cs.reverse.findIdx? (fun x => x == c) with
  | none => none
  | some k => some (cs.length - 1 - k)

/-- Model of Python `pathlib.PurePath.suffix` applied to a file name:
the last dot-suffix, empty unless the dot sits strictly inside the name
(`.hidden` and `name.` have empty suffix). -/
def pySuffix (name : String) : String :=
  let cs := name.data
  match rfindChar '.' cs with
  | none => ""
  | some i => if 0 < i ∧ i < cs.length - 1 then ⟨cs.drop i⟩ else ""

/-! ## Ignore policy (`ChangeEventHandler.should_ignore_file`) -/

/-- `ChangeEventHandler.ignored_patterns`. -/
def ignoredPatterns : List String :=
  [".git", "__pycache__", "node_modules", ".vscode",
   ".idea", "venv", "env", ".pytest_cache", "dist",
   "build", ".DS_Store", "Thumbs.db"]

/-- `ChangeEventHandler.ignored_extensions`. -/
def ignoredExtensions : List String :=
  [".pyc", ".pyo", ".log", ".tmp", ".temp", ".cache",
   ".swp", ".swo", ".bak", ".orig"]

/-- The dot-file extension allow-list in `should_ignore_file`. -/
def hiddenAllowedExtensions : List String :=
  [".py", ".js", ".ts", ".jsx", ".tsx"]

/-- `ChangeEventHandler.should_ignore_file`, applied to the `Path.parts`
decomposition of the path.  Mirrors the source: a path is ignored when some
part *contains* an ignored pattern as a substring (`pattern in part`), or the
suffix of the final component is an ignored extension, or the final component
is dot-prefixed and its suffix is not in the allow-list. -/
def should_ignore_file (parts : List String) : Bool :=
  let name := parts.getLastD ""
  if parts.any (fun part => ignoredPatterns.any (fun pat => strContains part pat)) then
    true
  else if ignoredExtensions.contains (pySuffix name) then
    true
  else if strStartsWith name "." && !(hiddenAllowedExtensions.contains (pySuffix name)) then
    true
  else
    false

/-! ## Diff engine (`RepoWatcher._create_diff` and `difflib.unified_diff`) -/

/-- One line-level edit operation. -/
inductive DiffOp
  | equal (l : String)
  | del (l : String)
  | ins (l : String)
deriving DecidableEq, Repr

/-- Number of non-`equal` operations: the edit cost minimised by the
line-based longest-common-subsequence diff. -/
def opsCost (ops : List DiffOp) : Nat :=
  ops.countP (fun o => match o with | .equal _ => false | _ => true)

/-- Fuelled LCS edit-script computation between two line sequences
(model of the matcher behind `difflib.unified_diff`; the spec describes it as
a line-based longest-common-subsequence diff).  The fuel is always sufficient
when it starts at `xs.length + ys.length`. -/
def lcsOpsFuel : Nat → List String → List String → List DiffOp
  | _, [], ys => ys.map .ins
  | _, x :: xs, [] => (x :: xs).map .del
  | 0, xs, ys => xs.map .del ++ ys.map .ins
  | fuel + 1, x :: xs, y :: ys =>
    if x = y then .equal x :: lcsOpsFuel fuel xs ys
    else
      let d := .del x :: lcsOpsFuel fuel xs (y :: ys)
      let i := .ins y :: lcsOpsFuel fuel (x :: xs) ys
      if opsCost d ≤ opsCost i then d else i

/-- Line-based LCS edit script between two line sequences. -/
def lcsOps (xs ys : List String) : List DiffOp :=
  lcsOpsFuel (xs.length + ys.length) xs ys

/-- A `difflib` opcode: a block of the edit script with half-open index
ranges into the old (`i1`,`i2`) and new (`j1`,`j2`) line sequences.
Non-`equal` blocks are rendered as deletions followed by insertions, exactly
as `difflib` renders `replace`/`delete`/`insert` opcodes. -/
structure Opcode where
  isEqual : Bool
  i1 : Nat
  i2 : Nat
  j1 : Nat
  j2 : Nat
deriving DecidableEq, Repr

instance : Inhabited Opcode := ⟨⟨true, 0, 0, 0, 0⟩⟩

/-- Turn an edit script into single-operation opcodes, tracking indices. -/
def opsToSingles : List DiffOp → Nat → Nat → List Opcode
  | [], _, _ => []
  | .equal _ :: r, i, j => ⟨true, i, i + 1, j, j + 1⟩ :: opsToSingles r (i + 1) (j + 1)
  | .del _ :: r, i, j => ⟨false, i, i + 1, j, j⟩ :: opsToSingles r (i + 1) j
  | .ins _ :: r, i, j => ⟨false, i, i, j, j + 1⟩ :: opsToSingles r i (j + 1)

/-- Merge two adjacent opcodes of the same kind into one block. -/
def mergeOp (c1 c2 : Opcode) : Opcode :=
  ⟨c1.isEqual, c1.i1, c2.i2, c1.j1, c2.j2⟩

/-- Fuelled coalescing of adjacent same-kind opcodes into maximal blocks. -/
def coalesceFuel : Nat → List Opcode → List Opcode
  | _, [] => []
  | _, [c] => [c]
  | 0, l => l
  | fuel + 1, c1 :: c2 :: rest =>
    if c1.isEqual == c2.isEqual then coalesceFuel fuel (mergeOp c1 c2 :: rest)
    else c1 :: coalesceFuel fuel (c2 :: rest)

/-- Coalesce adjacent same-kind opcodes into maximal blocks. -/
def coalesce (l : List Opcode) : List Opcode :=
  coalesceFuel l.length l

/-- The opcode blocks of the diff between two line sequences
(model of `SequenceMatcher.get_opcodes`). -/
def getOpcodes (a b : List String) : List Opcode :=
  coalesce (opsToSingles (lcsOps a b) 0 0)

/-- Trim a leading `equal` opcode down to the last `n` context lines
(first step of `get_grouped_opcodes`). -/
def trimFront (n : Nat) : List Opcode → List Opcode
  | [] => []
  | c :: rest =>
    if c.isEqual then
      { c with i1 := max c.i1 (c.i2 - n), j1 := max c.j1 (c.j2 - n) } :: rest
    else c :: rest

/-- Trim a trailing `equal` opcode down to the first `n` context lines. -/
def trimBack (n : Nat) : List Opcode → List Opcode
  | [] => []
  | [c] =>
    if c.isEqual then
      [{ c with i2 := min c.i2 (c.i1 + n), j2 := min c.j2 (c.j1 + n) }]
    else [c]
  | c :: rest => c :: trimBack n rest

/-- The grouping loop of `difflib.SequenceMatcher.get_grouped_opcodes`:
split at interior `equal` blocks longer than `2 * n`, keeping `n` context
lines on each side; a final group that is a single `equal` block is
suppressed. -/
def groupLoop (n : Nat) : List Opcode → List Opcode → List (List Opcode)
  | [], group =>
    if group.isEmpty || (group.length == 1 && (group.getD 0 default).isEqual) then []
    else [group]
  | c :: rest, group =>
    if c.isEqual && c.i2 - c.i1 > n + n then
      (group ++ [⟨true, c.i1, min c.i2 (c.i1 + n), c.j1, min c.j2 (c.j1 + n)⟩]) ::
        groupLoop n rest [⟨true, max c.i1 (c.i2 - n), c.i2, max c.j1 (c.j2 - n), c.j2⟩]
    else groupLoop n rest (group ++ [c])

/-- Model of `SequenceMatcher.get_grouped_opcodes(n)`. -/
def getGroupedOpcodes (codes : List Opcode) (n : Nat) : List (List Opcode) :=
  let codes := if codes.isEmpty then [⟨true, 0, 0, 0, 0⟩] else codes
  groupLoop n (trimBack n (trimFront n codes)) []

/-- A line of the unified diff, tagged with its structural role. -/
inductive TaggedLine
  | fileHeadOld (file : String)
  | fileHeadNew (file : String)
  | hunkHead (s : String)
  | ctx (l : String)
  | add (l : String)
  | del (l : String)
deriving DecidableEq, Repr

/-- Render a tagged diff line to its textual form. -/
def renderTagged : TaggedLine → String
  | .fileHeadOld f => "--- " ++ f
  | .fileHeadNew f => "+++ " ++ f
  | .hunkHead s => s
  | .ctx l => " " ++ l
  | .add l => "+" ++ l
  | .del l => "-" ++ l

/-- Model of `difflib._format_range_unified`. -/
def formatRangeUnified (start stop : Nat) : String :=
  let beginning := start + 1
  let length := stop - start
  if length = 1 then natToStr beginning
  else
    let beginning := if length = 0 then beginning - 1 else beginning
    natToStr beginning ++ "," ++ natToStr length

/-- The `@@ -… +… @@` header of one hunk. -/
def hunkHeader (g : List Opcode) : String :=
  match g.head?, g.getLast? with
  | some first, some last =>
    "@@ -" ++ formatRangeUnified first.i1 last.i2 ++
      " +" ++ formatRangeUnified first.j1 last.j2 ++ " @@"
  | _, _ => ""

/-- Render one grouped hunk: header, then per opcode its context lines or its
deletions followed by insertions (as `difflib.unified_diff` renders
`equal` / `replace` / `delete` / `insert` opcodes). -/
def renderGroup (a b : List String) (g : List Opcode) : List TaggedLine :=
  .hunkHead (hunkHeader g) ::
    g.flatMap (fun c =>
      if c.isEqual then ((a.drop c.i1).take (c.i2 - c.i1)).map .ctx
      else ((a.drop c.i1).take (c.i2 - c.i1)).map .del ++
           ((b.drop c.j1).take (c.j2 - c.j1)).map .add)

/-- Model of `difflib.unified_diff(a, b, fromfile, tofile, lineterm='')`,
keeping each line's structural tag.  Empty when the sequences are equal. -/
def unifiedDiffTagged (a b : List String) (fromfile tofile : String) : List TaggedLine :=
  let groups := getGroupedOpcodes (getOpcodes a b) 3
  if groups.isEmpty then []
  else .fileHeadOld fromfile :: .fileHeadNew tofile :: groups.flatMap (renderGroup a b)

/-- `old_content.split('\n') if old_content else []` from `_create_diff`. -/
def contentLines (s : String) : List String :=
  if s = "" then [] else pySplitLines s

/-- `RepoWatcher._create_diff`: unified diff of the two contents' line
sequences, prefixed with a synthetic git-style header, all joined with
newlines; the sentinel `"No changes detected"` when the diff is empty. -/
def _create_diff (relativePath oldContent newContent : String) : String :=
  let oldLines := contentLines oldContent
  let newLines := contentLines newContent
  let diffLines :=
    (unifiedDiffTagged oldLines newLines ("a/" ++ relativePath) ("b/" ++ relativePath)).map
      renderTagged
  if diffLines.isEmpty then "No changes detected"
  else
    let headerLines :=
      ["diff --git a/" ++ relativePath ++ " b/" ++ relativePath] ++
        (if oldContent = "" then ["new file mode 100644"]
         else if newContent = "" then ["deleted file mode 100644"]
         else ["index 0000000..1111111 100644"])
    pyJoinLines (headerLines ++ diffLines)

/-- The per-line contribution to the `added` count of `_parse_diff_stats`:
`line.startswith('+') and not line.startswith('+++')`. -/
def lineAddCount (line : String) : Nat :=
  if strStartsWith line "+" && !strStartsWith line "+++" then 1 else 0

/-- The per-line contribution to the `removed` count of `_parse_diff_stats`:
`line.startswith('-') and not line.startswith('---')`. -/
def lineDelCount (line : String) : Nat :=
  if !(strStartsWith line "+" && !strStartsWith line "+++") &&
     (strStartsWith line "-" && !strStartsWith line "---") then 1 else 0

/-- Scan of the split diff lines performed by `_parse_diff_stats`. -/
def parseDiffStatsLines (lines : List String) : Nat × Nat :=
  lines.foldl
    (fun acc line =>
      if strStartsWith line "+" && !strStartsWith line "+++" then (acc.1 + 1, acc.2)
      else if strStartsWith line "-" && !strStartsWith line "---" then (acc.1, acc.2 + 1)
      else acc)
    (0, 0)

/-- `RepoWatcher._parse_diff_stats`: `(added, removed)` counts obtained by
splitting the diff at newlines and scanning for `+`/`-` markers, excluding
lines that start with `+++` or `---`. -/
def _parse_diff_stats (diff : String) : Nat × Nat :=
  parseDiffStatsLines (pySplitLines diff)

/-! ## `RepoWatcher._get_proper_diff`

The filesystem and git environment of one event are explicit parameters:
whether the path exists on disk, the result of reading it (`.error e` models
the `except` branch), and the content of the path at `HEAD` (`none` models a
failing `git show`).  The function returns the diff string together with the
snapshot-store entry for the path afterwards. -/

/-- The change kind of a filesystem event. -/
inductive ChangeType
  | created
  | modified
  | deleted
deriving DecidableEq, Repr

/-- Result of `_get_proper_diff`: the diff string and the snapshot entry for
the path after the call (`none` = no entry). -/
structure ProperDiffResult where
  diff : String
  snap : Option String
deriving DecidableEq, Repr

/-- `RepoWatcher._get_proper_diff`.  Deletion (or a vanished path) diffs the
snapshot entry against empty and removes the entry, or returns the
"no previous snapshot" sentinel.  Otherwise: a failed read returns an error
sentinel leaving the snapshot untouched; the previous content is the snapshot
entry when that is non-empty (Python truthiness of `previous_content`), else
the `HEAD` content when the kind is not `created` (empty when `git show`
fails), else empty; the snapshot entry is then overwritten with the current
content, and equal contents yield the "no actual changes" sentinel. -/
def _get_proper_diff (relativePath : String) (changeType : ChangeType)
    (pathExists : Bool) (readResult : Except String String)
    (headContent : Option String) (snapEntry : Option String) : ProperDiffResult :=
  if changeType = .deleted || !pathExists then
    match snapEntry with
    | some previousContent => ⟨_create_diff relativePath previousContent "", none⟩
    | none => ⟨"File deleted (no previous snapshot available)", none⟩
  else
    match readResult with
    | .error e => ⟨"Error reading current file: " ++ e, snapEntry⟩
    | .ok currentContent =>
      let previousContent := snapEntry.getD ""
      let previousContent :=
        if previousContent = "" && changeType ≠ .created then headContent.getD ""
        else previousContent
      let newSnap := some currentContent
      if previousContent = currentContent then ⟨"No actual changes detected", newSnap⟩
      else ⟨_create_diff relativePath previousContent currentContent, newSnap⟩

/-! ## Change processor (`ChangeProcessor`) -/

/-- Outcome the AI backend environment produces for one POST attempt. -/
inductive AttemptOutcome
  | status (code : Nat)
  | timeout
  | connError
  | reqError
deriving DecidableEq, Repr, Inhabited

/-- How one attempt's outcome is classified by `_send_to_ai_with_retries`:
`some true` = HTTP 200, accepted; `some false` = HTTP 400, terminal reject;
`none` = every other outcome, retryable. -/
def terminalResult : AttemptOutcome → Option Bool
  | .status code => if code = 200 then some true else if code = 400 then some false else none
  | _ => none

/-- Observable result of one `_send_to_ai_with_retries` call: number of POST
attempts made, the backoff waits slept between attempts, and the returned
boolean. -/
structure SendResult where
  attempts : Nat
  waits : List Nat
  success : Bool
deriving DecidableEq, Repr

/-- The retry loop of `_send_to_ai_with_retries`: `remaining` attempts left
out of `maxRetries`, so the current attempt number is
`maxRetries - remaining + 1`.  HTTP 200 returns `True`, HTTP 400 returns
`False` with no further attempt, anything else sleeps `2 ** attempt` seconds
and retries while attempts remain; exhaustion returns `False`. -/
def sendLoop (maxRetries : Nat) (outcomes : Nat → AttemptOutcome) : Nat → SendResult
  | 0 => ⟨0, [], false⟩
  | r + 1 =>
    let attempt := maxRetries - r
    match terminalResult (outcomes attempt) with
    | some b => ⟨1, [], b⟩
    | none =>
      if r = 0 then ⟨1, [], false⟩
      else
        let rest := sendLoop maxRetries outcomes r
        ⟨rest.attempts + 1, 2 ^ attempt :: rest.waits, rest.success⟩

/-- `ChangeProcessor._send_to_ai_with_retries` with the processor's
`max_retries = 3`; `outcomes k` is what the backend does on attempt `k`. -/
def _send_to_ai_with_retries (outcomes : Nat → AttemptOutcome) : SendResult :=
  sendLoop 3 outcomes 3

/-- Delivery state of a change record (`sent_to_ai` column). -/
inductive DeliveryState
  | Pending
  | Sent
deriving DecidableEq, Repr

instance : Inhabited DeliveryState := ⟨.Pending⟩

/-- `ChangeProcessor._send_change_to_ai` for one record: a record already
marked sent is skipped (no POST, returns `True`); otherwise the payload is
sent with retries and the record is marked `Sent` exactly when the loop
succeeded.  Returns the new delivery state and the number of POST attempts
performed. -/
def _send_change_to_ai (st : DeliveryState) (outcomes : Nat → AttemptOutcome) :
    DeliveryState × Nat :=
  match st with
  | .Sent => (.Sent, 0)
  | .Pending =>
    let r := _send_to_ai_with_retries outcomes
    (if r.success then .Sent else .Pending, r.attempts)

/-- `ChangeProcessor.process_unsent_changes` over a list of records given in
timestamp order: the records with `sent_to_ai == False`, oldest first, up to
`limit`, are each passed to `_send_change_to_ai`; the result lists each
record's new delivery state and the POST attempts made for it. -/
def process_unsent_changes (recs : List (DeliveryState × (Nat → AttemptOutcome)))
    (limit : Nat) : List (DeliveryState × Nat) :=
  let sel :=
    (((List.range recs.length).filter
        (fun i => (recs.getD i default).1 == DeliveryState.Pending)).take limit)
  (List.range recs.length).map (fun i =>
    let r := recs.getD i default
    if sel.contains i then _send_change_to_ai r.1 r.2 else (r.1, 0))

/-! ## Execution effects of the event-callback path

`handle_file_change` (the per-event callback registered on every watcher) is
modelled by the list of externally visible effects it performs before
returning, in order: database operations, local file reads, network POSTs
and backoff sleeps. -/

/-- An externally visible effect of the event-callback path. -/
inductive Effect
  | dbOp
  | localRead
  | networkPost
  | sleepSec (n : Nat)
deriving DecidableEq, Repr

/-- Effect trace of the retry loop of `_send_to_ai_with_retries`: one POST
per attempt, with a `2 ** attempt`-second sleep after each non-terminal
outcome that leaves attempts remaining. -/
def sendLoopTrace (maxRetries : Nat) (outcomes : Nat → AttemptOutcome) : Nat → List Effect
  | 0 => []
  | r + 1 =>
    let attempt := maxRetries - r
    Effect.networkPost ::
      (match terminalResult (outcomes attempt) with
       | some _ => []
       | none =>
         if r = 0 then []
         else Effect.sleepSec (2 ^ attempt) :: sendLoopTrace maxRetries outcomes r)

/-- Effect trace of `_send_change_to_ai`: the database fetch of the record,
then — unless the record is already `Sent` — the payload preparation's local
file read (`_prepare_ai_payload` / `_get_file_versions`) followed by the
whole retry loop, run in the caller's execution context. -/
def sendChangeToAITrace (st : DeliveryState) (outcomes : Nat → AttemptOutcome) :
    List Effect :=
  match st with
  | .Sent => [Effect.dbOp]
  | .Pending => Effect.dbOp :: Effect.localRead :: sendLoopTrace 3 outcomes 3

/-- Effect trace of `ChangeProcessor._queue_for_ai_processing`: despite its
"runs in background" docstring it calls `_send_change_to_ai` directly
("For now, process immediately"), so its trace is the whole delivery trace. -/
def _queue_for_ai_processing_trace (st : DeliveryState)
    (outcomes : Nat → AttemptOutcome) : List Effect :=
  sendChangeToAITrace st outcomes

/-- Effect trace of `ChangeProcessor.process_file_change`: validation (pure),
the persistence transaction (`_save_change_to_db`), then the synchronous call
to `_queue_for_ai_processing`. -/
def process_file_change_trace (st : DeliveryState)
    (outcomes : Nat → AttemptOutcome) : List Effect :=
  Effect.dbOp :: _queue_for_ai_processing_trace st outcomes

/-- Effect trace of the per-event callback `handle_file_change` in
`src/api/server.py`: it opens a session and calls `process_file_change`
synchronously before returning. -/
def handle_file_change_trace (st : DeliveryState)
    (outcomes : Nat → AttemptOutcome) : List Effect :=
  process_file_change_trace st outcomes

/-! ## Watcher lifecycle and manager (`RepoWatcher` / `WatcherManager`) -/

/-- The mutable state of one `RepoWatcher`: the `is_running` flag, whether an
observer (filesystem subscription) and an event handler are attached, and the
snapshot map `file_snapshots` as an association list. -/
structure WatcherState where
  isRunning : Bool
  hasObserver : Bool
  hasHandler : Bool
  snapshots : List (String × String)
deriving DecidableEq, Repr

/-- `RepoWatcher.__init__`: validates the path; an invalid or missing git
repository raises, so no watcher object is ever constructed (`none`). -/
def mkRepoWatcher (validRepo : Bool) : Option WatcherState :=
  if validRepo then some ⟨false, false, false, []⟩ else none

/-- `dict`-style entry update used by `initialize_snapshots`. -/
def setSnapshot (m : List (String × String)) (k v : String) : List (String × String) :=
  if (m.find? (fun p => p.1 == k)).isSome then
    m.map (fun p => if p.1 == k then (p.1, v) else p)
  else m ++ [(k, v)]

/-- `RepoWatcher.start_watching`: already-running watchers return `True`
unchanged; otherwise the event handler is created, `initialize_snapshots`
seeds the snapshot map with the readable non-ignored files (`seed`), and the
observer is created and started.  `observerStartFails` models an exception
from the observer machinery, caught by the `except` branch: `is_running`
stays `False` and `False` is returned. -/
def start_watching (observerStartFails : Bool) (seed : List (String × String))
    (w : WatcherState) : Bool × WatcherState :=
  if w.isRunning then (true, w)
  else
    let seeded := seed.foldl (fun m kv => setSnapshot m kv.1 kv.2) w.snapshots
    if observerStartFails then
      (false, { w with hasHandler := true, snapshots := seeded, isRunning := false })
    else
      (true,
        { w with hasHandler := true, snapshots := seeded,
                 hasObserver := true, isRunning := true })

/-- `RepoWatcher.stop_watching`: a watcher that is not running returns `True`
unchanged.  Otherwise the observer is stopped and joined with a 5-second
bound — `joinCompleted` (whether the thread finished within the bound) is
not inspected — the observer and handler are dropped, `is_running` is set to
`False` and `True` is returned.  The third component reports the join bound
used (`some 5` when an observer was attached).  The snapshot map is not
touched. -/
def stop_watching (joinCompleted : Bool) (w : WatcherState) :
    Bool × WatcherState × Option Nat :=
  if !w.isRunning then (true, w, none)
  else
    let joinBound := if w.hasObserver then some 5 else none
    (true, { w with hasObserver := false, hasHandler := false, isRunning := false },
      joinBound)

/-- `WatcherManager`: registry of watchers keyed by repository id, in
insertion order (Python `dict`). -/
structure Manager where
  watchers : List (String × WatcherState)
deriving DecidableEq, Repr

/-- Registry lookup (`self.watchers[repo_id]`). -/
def findWatcher (m : Manager) (id : String) : Option (String × WatcherState) :=
  m.watchers.find? (fun p => p.1 == id)

/-- Replace the state of the watcher registered under `id`. -/
def updateWatcher (m : Manager) (id : String) (w : WatcherState) : Manager :=
  ⟨m.watchers.map (fun p => if p.1 == id then (id, w) else p)⟩

/-- `WatcherManager.add_repository`: an id already registered returns `True`
immediately, leaving the registry unchanged — the new path is never
validated and no new watcher is constructed.  Otherwise a `RepoWatcher` is
constructed; a construction failure is caught and reported as `False` with
nothing stored. -/
def add_repository (m : Manager) (id : String) (validRepo : Bool) : Bool × Manager :=
  if (findWatcher m id).isSome then (true, m)
  else
    match mkRepoWatcher validRepo with
    | some w => (true, ⟨m.watchers ++ [(id, w)]⟩)
    | none => (false, m)

/-- `WatcherManager.start_watching`: unknown ids return `False`; otherwise
delegate to the watcher.  `env id = (observerStartFails, seed)` is the
per-repository filesystem environment. -/
def manager_start_watching (env : String → Bool × List (String × String))
    (m : Manager) (id : String) : Bool × Manager :=
  match findWatcher m id with
  | none => (false, m)
  | some (_, w) =>
    let r := start_watching (env id).1 (env id).2 w
    (r.1, updateWatcher m id r.2)

/-- The loop body of `WatcherManager.start_all`: iterate over the registered
ids, recording each `start_watching` outcome. -/
def startAllGo (env : String → Bool × List (String × String)) :
    List String → Manager → List (String × Bool) × Manager
  | [], m => ([], m)
  | id :: rest, m =>
    let r := manager_start_watching env m id
    let tl := startAllGo env rest r.2
    ((id, r.1) :: tl.1, tl.2)

/-- `WatcherManager.start_all`: start every registered repository, returning
the per-id success map. -/
def start_all (env : String → Bool × List (String × String)) (m : Manager) :
    List (String × Bool) × Manager :=
  startAllGo env (m.watchers.map Prod.fst) m

/-! ## Derived counting and classification helpers -/

/-- Whether a tagged diff line is an insertion of the diff body. -/
def isAddLine : TaggedLine → Bool
  | .add _ => true
  | _ => false

/-- Whether a tagged diff line is a removal of the diff body. -/
def isDelLine : TaggedLine → Bool
  | .del _ => true
  | _ => false

/-- The number of genuine insertion lines of a tagged unified diff. -/
def taggedAddCount (ts : List TaggedLine) : Nat :=
  (ts.filter isAddLine).length

/-- The number of genuine removal lines of a tagged unified diff. -/
def taggedDelCount (ts : List TaggedLine) : Nat :=
  (ts.filter isDelLine).length

/-- Side condition under which `_parse_diff_stats`' prefix matching counts a
tagged line correctly: an insertion's text must not begin with `++`, a
removal's text must not begin with `--`, and a hunk header must begin with
`@` (or be empty). -/
def tagSafe : TaggedLine → Prop
  | .add l => strStartsWith l "++" = false
  | .del l => strStartsWith l "--" = false
  | .hunkHead s => s.data.head? = some '@' ∨ s = ""
  | _ => True

/-- The previous-content selection of `_get_proper_diff` for a
created/modified event, as the amended C4 describes it: the snapshot entry
when present and non-empty; otherwise — only when the kind is not `created`
— the `HEAD` content (empty when absent); otherwise empty. -/
def previousContentAmended (changeType : ChangeType) (headContent : Option String)
    (snapEntry : Option String) : String :=
  match snapEntry with
  | some prev =>
    if prev ≠ "" then prev
    else if changeType ≠ .created then headContent.getD "" else prev
  | none => if changeType ≠ .created then headContent.getD "" else ""

/-! # Supporting lemmas -/

/-! ## String facts -/

theorem data_plus : ("+" : String).data = ['+'] := rfl

theorem data_plus2 : ("++" : String).data = ['+', '+'] := rfl

theorem data_plus3 : ("+++" : String).data = ['+', '+', '+'] := rfl

theorem data_minus : ("-" : String).data = ['-'] := rfl

theorem data_minus3 : ("---" : String).data = ['-', '-', '-'] := rfl

theorem isPrefixOf_append_left (pre : List Char) :
    ∀ (s t : List Char), pre.length ≤ s.length →
      pre.isPrefixOf (s ++ t) = pre.isPrefixOf s := by
  induction pre with
  | nil => intro s t _; simp [List.isPrefixOf]
  | cons a as ih =>
    intro s t h
    cases s with
    | nil => simp at h
    | cons b bs =>
      show (a == b && as.isPrefixOf (bs ++ t)) = (a == b && as.isPrefixOf bs)
      rw [ih bs t (by simpa using h)]

theorem strStartsWith_append_left (s t pre : String)
    (h : pre.data.length ≤ s.data.length) :
    strStartsWith (s ++ t) pre = strStartsWith s pre := by
  simp only [strStartsWith, String.data_append]
  exact isPrefixOf_append_left pre.data s.data t.data h

theorem isPrefixOf_cons (a b : Char) (as bs : List Char) :
    (a :: as).isPrefixOf (b :: bs) = (a == b && as.isPrefixOf bs) := rfl

theorem lineCounts_of_headChar (s : String) (c : Char) (hdata : s.data.head? = some c)
    (hplus : c ≠ '+') (hminus : c ≠ '-') :
    lineAddCount s = 0 ∧ lineDelCount s = 0 := by
  obtain ⟨rest, hd⟩ : ∃ rest, s.data = c :: rest := by
    cases hm : s.data with
    | nil => rw [hm] at hdata; simp at hdata
    | cons c0 r =>
      rw [hm] at hdata
      simp only [List.head?_cons, Option.some.injEq] at hdata
      subst hdata
      exact ⟨r, rfl⟩
  have h1 : (('+' : Char) == c) = false := beq_eq_false_iff_ne.mpr (Ne.symm hplus)
  have h2 : (('-' : Char) == c) = false := beq_eq_false_iff_ne.mpr (Ne.symm hminus)
  unfold lineAddCount lineDelCount strStartsWith
  rw [data_plus, data_plus3, data_minus, data_minus3, hd]
  simp [isPrefixOf_cons, h1, h2]

theorem lineCounts_add_line (l : String) :
    lineAddCount ("+" ++ l) = (if strStartsWith l "++" = true then 0 else 1) ∧
    lineDelCount ("+" ++ l) = 0 := by
  have hdata : ("+" ++ l).data = '+' :: l.data := by
    rw [String.data_append, data_plus]; rfl
  unfold lineAddCount lineDelCount strStartsWith
  rw [data_plus, data_plus3, data_minus, data_minus3, data_plus2, hdata]
  cases hX : List.isPrefixOf ['+', '+'] l.data <;>
    simp [isPrefixOf_cons, List.isPrefixOf, hX]

theorem lineCounts_del_line (l : String) :
    lineAddCount ("-" ++ l) = 0 ∧
    lineDelCount ("-" ++ l) = (if strStartsWith l "--" = true then 0 else 1) := by
  have hdata : ("-" ++ l).data = '-' :: l.data := by
    rw [String.data_append, data_minus]; rfl
  have hm2 : ("--" : String).data = ['-', '-'] := rfl
  unfold lineAddCount lineDelCount strStartsWith
  rw [data_plus, data_plus3, data_minus, data_minus3, hm2, hdata]
  cases hX : List.isPrefixOf ['-', '-'] l.data <;>
    simp [isPrefixOf_cons, List.isPrefixOf, hX]

theorem lineCounts_ctx_line (l : String) :
    lineAddCount (" " ++ l) = 0 ∧ lineDelCount (" " ++ l) = 0 := by
  refine lineCounts_of_headChar (" " ++ l) ' ' ?_ (by decide) (by decide)
  rw [String.data_append]
  rfl

theorem lineCounts_fileHeadOld (f : String) :
    lineAddCount ("--- " ++ f) = 0 ∧ lineDelCount ("--- " ++ f) = 0 := by
  unfold lineAddCount lineDelCount
  rw [strStartsWith_append_left _ _ "+" (by decide),
    strStartsWith_append_left _ _ "+++" (by decide),
    strStartsWith_append_left _ _ "-" (by decide),
    strStartsWith_append_left _ _ "---" (by decide)]
  decide

theorem lineCounts_fileHeadNew (f : String) :
    lineAddCount ("+++ " ++ f) = 0 ∧ lineDelCount ("+++ " ++ f) = 0 := by
  unfold lineAddCount lineDelCount
  rw [strStartsWith_append_left _ _ "+" (by decide),
    strStartsWith_append_left _ _ "+++" (by decide),
    strStartsWith_append_left _ _ "-" (by decide),
    strStartsWith_append_left _ _ "---" (by decide)]
  decide

/-! ## Newline-freeness -/

theorem digitCh_ne_newline (m : Nat) : digitCh m ≠ '\n' := by
  unfold digitCh
  split <;> decide

theorem newline_not_mem_natToCharsGo :
    ∀ (fuel n : Nat) (acc : List Char), '\n' ∉ acc → '\n' ∉ natToCharsGo fuel n acc := by
  intro fuel
  induction fuel with
  | zero => intro n acc h; simpa [natToCharsGo] using h
  | succ f ih =>
    intro n acc h
    unfold natToCharsGo
    by_cases hn : n < 10
    · simp only [hn, if_true]
      intro hmem
      rcases List.mem_cons.mp hmem with h1 | h2
      · exact digitCh_ne_newline (n % 10) h1.symm
      · exact h h2
    · simp only [hn, if_false]
      refine ih (n / 10) (digitCh (n % 10) :: acc) ?_
      intro hmem
      rcases List.mem_cons.mp hmem with h1 | h2
      · exact digitCh_ne_newline (n % 10) h1.symm
      · exact h h2

theorem newline_not_mem_natToStr (n : Nat) : '\n' ∉ (natToStr n).data :=
  newline_not_mem_natToCharsGo (n + 1) n [] (by simp)

theorem newline_not_mem_formatRange (a b : Nat) :
    '\n' ∉ (formatRangeUnified a b).data := by
  simp only [formatRangeUnified]
  split
  · exact newline_not_mem_natToStr (a + 1)
  · simp only [String.data_append]
    intro hmem
    rcases List.mem_append.mp hmem with h1 | h2
    · rcases List.mem_append.mp h1 with h3 | h4
      · split at h3
        · exact newline_not_mem_natToStr a h3
        · exact newline_not_mem_natToStr (a + 1) h3
      · simp at h4
    · exact newline_not_mem_natToStr (b - a) h2

theorem newline_not_mem_hunkHeader (g : List Opcode) :
    '\n' ∉ (hunkHeader g).data := by
  unfold hunkHeader
  split
  · simp only [String.data_append]
    intro hmem
    rcases List.mem_append.mp hmem with h1 | h2
    · rcases List.mem_append.mp h1 with h3 | h4
      · rcases List.mem_append.mp h3 with h5 | h6
        · rcases List.mem_append.mp h5 with h7 | h8
          · simp at h7
          · exact newline_not_mem_formatRange _ _ h8
        · simp at h6
      · exact newline_not_mem_formatRange _ _ h4
    · simp at h2
  · simp

theorem hunkHeader_headChar (g : List Opcode) :
    (hunkHeader g).data.head? = some '@' ∨ hunkHeader g = "" := by
  unfold hunkHeader
  split
  · left
    have h4 : ("@@ -" : String).data = '@' :: "@ -".data := rfl
    simp only [String.data_append, h4, List.cons_append, List.head?_cons]
  · right; rfl

/-! ## Split/join round trip -/

theorem not_mem_of_mem_splitCharList (sep : Char) :
    ∀ (cs : List Char), ∀ l ∈ splitCharList sep cs, sep ∉ l := by
  intro cs
  induction cs with
  | nil =>
    intro l hl
    simp only [splitCharList, List.mem_singleton] at hl
    simp [hl]
  | cons c cs ih =>
    intro l hl
    unfold splitCharList at hl
    by_cases hc : c = sep
    · simp only [hc, if_true] at hl
      rcases List.mem_cons.mp hl with h1 | h2
      · simp [h1]
      · exact ih l h2
    · simp only [hc, if_false] at hl
      cases hr : splitCharList sep cs with
      | nil =>
        rw [hr] at hl
        simp only [List.mem_singleton] at hl
        subst hl
        simp only [List.mem_singleton]
        exact fun h => hc h.symm
      | cons h t =>
        rw [hr] at hl
        rcases List.mem_cons.mp hl with h1 | h2
        · subst h1
          intro hmem
          rcases List.mem_cons.mp hmem with h3 | h4
          · exact hc h3.symm
          · exact ih h (hr ▸ List.mem_cons_self h t) h4
        · exact ih l (hr ▸ List.mem_cons_of_mem h h2)

theorem splitCharList_of_not_mem (sep : Char) :
    ∀ (cs : List Char), sep ∉ cs → splitCharList sep cs = [cs] := by
  intro cs
  induction cs with
  | nil => intro _; rfl
  | cons c cs ih =>
    intro h
    have hc : ¬ c = sep := fun he => h (he ▸ List.mem_cons_self c cs)
    have hcs : sep ∉ cs := fun hm => h (List.mem_cons_of_mem c hm)
    unfold splitCharList
    rw [ih hcs]
    simp [hc]

theorem splitCharList_append_sep (sep : Char) :
    ∀ (cs r : List Char), sep ∉ cs →
      splitCharList sep (cs ++ sep :: r) = cs :: splitCharList sep r := by
  intro cs
  induction cs with
  | nil => intro r _; simp [splitCharList]
  | cons c cs ih =>
    intro r h
    have hc : ¬ c = sep := fun he => h (he ▸ List.mem_cons_self c cs)
    have hcs : sep ∉ cs := fun hm => h (List.mem_cons_of_mem c hm)
    have hih := ih r hcs
    simp only [List.cons_append, splitCharList, hc, if_false]
    rw [show cs.append (sep :: r) = cs ++ sep :: r from rfl, hih]

theorem splitCharList_joinWithChar (sep : Char) :
    ∀ (css : List (List Char)), css ≠ [] → (∀ cs ∈ css, sep ∉ cs) →
      splitCharList sep (joinWithChar sep css) = css := by
  intro css
  induction css with
  | nil => intro h _; exact absurd rfl h
  | cons cs rest ih =>
    intro _ hall
    cases rest with
    | nil =>
      show splitCharList sep cs = [cs]
      exact splitCharList_of_not_mem sep cs (hall cs (List.mem_cons_self cs []))
    | cons cs2 rest2 =>
      show splitCharList sep (cs ++ sep :: joinWithChar sep (cs2 :: rest2)) = _
      rw [splitCharList_append_sep sep cs _ (hall cs (List.mem_cons_self cs _))]
      rw [ih (by simp) (fun x hx => hall x (List.mem_cons_of_mem cs hx))]

theorem pySplitLines_pyJoinLines (lines : List String) (hne : lines ≠ [])
    (h : ∀ l ∈ lines, '\n' ∉ l.data) :
    pySplitLines (pyJoinLines lines) = lines := by
  unfold pySplitLines pyJoinLines
  rw [show (⟨joinWithChar '\n' (lines.map String.data)⟩ : String).data =
        joinWithChar '\n' (lines.map String.data) from rfl]
  rw [splitCharList_joinWithChar '\n' (lines.map String.data)
    (by simpa using hne)
    (by
      intro cs hcs
      rcases List.mem_map.mp hcs with ⟨l, hl, hd⟩
      exact hd ▸ h l hl)]
  rw [List.map_map]
  have he : (fun (l : List Char) => (⟨l⟩ : String)) ∘ String.data = id := rfl
  rw [he, List.map_id]

/-! ## Diff-stats counting -/

theorem parseDiffStatsLines_foldl :
    ∀ (lines : List String) (a b : Nat),
      lines.foldl
        (fun acc line =>
          if strStartsWith line "+" && !strStartsWith line "+++" then (acc.1 + 1, acc.2)
          else if strStartsWith line "-" && !strStartsWith line "---" then (acc.1, acc.2 + 1)
          else acc)
        (a, b) =
      (a + (lines.map lineAddCount).sum, b + (lines.map lineDelCount).sum) := by
  intro lines
  induction lines with
  | nil => intro a b; simp
  | cons l rest ih =>
    intro a b
    have hstep :
        (if strStartsWith l "+" && !strStartsWith l "+++" then (a + 1, b)
         else if strStartsWith l "-" && !strStartsWith l "---" then (a, b + 1)
         else (a, b)) = (a + lineAddCount l, b + lineDelCount l) := by
      unfold lineAddCount lineDelCount
      by_cases h1 : (strStartsWith l "+" && !strStartsWith l "+++") = true
      · simp [h1]
      · by_cases h2 : (strStartsWith l "-" && !strStartsWith l "---") = true
        · simp [h1, h2]
        · simp [h1, h2]
    simp only [List.foldl_cons, hstep, ih]
    simp only [List.map_cons, List.sum_cons, Prod.mk.injEq]
    constructor <;> omega

theorem parseDiffStatsLines_sum (lines : List String) :
    parseDiffStatsLines lines =
      ((lines.map lineAddCount).sum, (lines.map lineDelCount).sum) := by
  unfold parseDiffStatsLines
  rw [parseDiffStatsLines_foldl lines 0 0]
  simp

theorem renderGroup_classes (a b : List String) (g : List Opcode) :
    ∀ t ∈ renderGroup a b g,
      t = .hunkHead (hunkHeader g) ∨
      (∃ l, l ∈ a ∧ (t = .ctx l ∨ t = .del l)) ∨
      (∃ l, l ∈ b ∧ t = .add l) := by
  intro t ht
  unfold renderGroup at ht
  rcases List.mem_cons.mp ht with h1 | h2
  · exact Or.inl h1
  · rcases List.mem_flatMap.mp h2 with ⟨c, _, hmem⟩
    by_cases he : c.isEqual = true
    · rw [if_pos he] at hmem
      rcases List.mem_map.mp hmem with ⟨l, hl, rfl⟩
      exact Or.inr (Or.inl
        ⟨l, List.mem_of_mem_drop (List.mem_of_mem_take hl), Or.inl rfl⟩)
    · rw [if_neg he] at hmem
      rcases List.mem_append.mp hmem with hD | hA
      · rcases List.mem_map.mp hD with ⟨l, hl, rfl⟩
        exact Or.inr (Or.inl
          ⟨l, List.mem_of_mem_drop (List.mem_of_mem_take hl), Or.inr rfl⟩)
      · rcases List.mem_map.mp hA with ⟨l, hl, rfl⟩
        exact Or.inr (Or.inr
          ⟨l, List.mem_of_mem_drop (List.mem_of_mem_take hl), rfl⟩)

theorem unifiedDiffTagged_classes (a b : List String) (ff tf : String) :
    ∀ t ∈ unifiedDiffTagged a b ff tf,
      t = .fileHeadOld ff ∨ t = .fileHeadNew tf ∨
      (∃ g, t = .hunkHead (hunkHeader g)) ∨
      (∃ l, l ∈ a ∧ (t = .ctx l ∨ t = .del l)) ∨
      (∃ l, l ∈ b ∧ t = .add l) := by
  intro t ht
  simp only [unifiedDiffTagged] at ht
  by_cases hg : (getGroupedOpcodes (getOpcodes a b) 3).isEmpty = true
  · rw [if_pos hg] at ht; simp at ht
  · rw [if_neg hg] at ht
    rcases List.mem_cons.mp ht with h1 | h2
    · exact Or.inl h1
    rcases List.mem_cons.mp h2 with h3 | h4
    · exact Or.inr (Or.inl h3)
    rcases List.mem_flatMap.mp h4 with ⟨g, _, hmem⟩
    rcases renderGroup_classes a b g t hmem with hh | hrest
    · exact Or.inr (Or.inr (Or.inl ⟨g, hh⟩))
    · rcases hrest with hca | hadd
      · exact Or.inr (Or.inr (Or.inr (Or.inl hca)))
      · exact Or.inr (Or.inr (Or.inr (Or.inr hadd)))

theorem counts_map_render (D : List TaggedLine) (hsafe : ∀ t ∈ D, tagSafe t) :
    ((D.map renderTagged).map lineAddCount).sum = taggedAddCount D ∧
    ((D.map renderTagged).map lineDelCount).sum = taggedDelCount D := by
  induction D with
  | nil => simp [taggedAddCount, taggedDelCount]
  | cons t rest ih =>
    have hrest := ih (fun x hx => hsafe x (List.mem_cons_of_mem t hx))
    simp only [List.map_map] at hrest
    have ht := hsafe t (List.mem_cons_self t rest)
    have hAdd : taggedAddCount (t :: rest) =
        (if isAddLine t then 1 else 0) + taggedAddCount rest := by
      unfold taggedAddCount
      cases hi : isAddLine t <;> simp [List.filter_cons, hi] <;> omega
    have hDel : taggedDelCount (t :: rest) =
        (if isDelLine t then 1 else 0) + taggedDelCount rest := by
      unfold taggedDelCount
      cases hi : isDelLine t <;> simp [List.filter_cons, hi] <;> omega
    simp only [List.map_cons, List.sum_cons, hAdd, hDel]
    cases t with
    | fileHeadOld f =>
      have hc := lineCounts_fileHeadOld f
      simp [renderTagged, hc.1, hc.2, hrest.1, hrest.2, isAddLine, isDelLine]
    | fileHeadNew f =>
      have hc := lineCounts_fileHeadNew f
      simp [renderTagged, hc.1, hc.2, hrest.1, hrest.2, isAddLine, isDelLine]
    | hunkHead s =>
      unfold tagSafe at ht
      rcases ht with hh | hh
      · have hc := lineCounts_of_headChar s '@' hh (by decide) (by decide)
        simp [renderTagged, hc.1, hc.2, hrest.1, hrest.2, isAddLine, isDelLine]
      · subst hh
        have hc : lineAddCount "" = 0 ∧ lineDelCount "" = 0 := by decide
        simp [renderTagged, hc.1, hc.2, hrest.1, hrest.2, isAddLine, isDelLine]
    | ctx l =>
      have hc := lineCounts_ctx_line l
      simp [renderTagged, hc.1, hc.2, hrest.1, hrest.2, isAddLine, isDelLine]
    | add l =>
      unfold tagSafe at ht
      have hc := lineCounts_add_line l
      simp [renderTagged, hc.1, hc.2, ht, hrest.1, hrest.2, isAddLine, isDelLine]
    | del l =>
      unfold tagSafe at ht
      have hc := lineCounts_del_line l
      simp [renderTagged, hc.1, hc.2, ht, hrest.1, hrest.2, isAddLine, isDelLine]

theorem newline_not_mem_append_str (s t : String) (hs : '\n' ∉ s.data)
    (ht : '\n' ∉ t.data) : '\n' ∉ (s ++ t).data := by
  rw [String.data_append]
  intro h
  rcases List.mem_append.mp h with h1 | h2
  · exact hs h1
  · exact ht h2

theorem contentLines_newline_free (s : String) :
    ∀ l ∈ contentLines s, '\n' ∉ l.data := by
  intro l hl
  unfold contentLines at hl
  split at hl
  · simp at hl
  · unfold pySplitLines at hl
    rcases List.mem_map.mp hl with ⟨cs, hcs, rfl⟩
    exact not_mem_of_mem_splitCharList '\n' s.data cs hcs

theorem unifiedDiffTagged_tagSafe (a b : List String) (ff tf : String)
    (hAdd : ∀ l ∈ b, strStartsWith l "++" = false)
    (hDel : ∀ l ∈ a, strStartsWith l "--" = false) :
    ∀ t ∈ unifiedDiffTagged a b ff tf, tagSafe t := by
  intro t ht
  rcases unifiedDiffTagged_classes a b ff tf t ht with
    h | h | ⟨g, rfl⟩ | ⟨l, hl, hcd⟩ | ⟨l, hl, rfl⟩
  · subst h; trivial
  · subst h; trivial
  · exact hunkHeader_headChar g
  · rcases hcd with rfl | rfl
    · trivial
    · exact hDel l hl
  · exact hAdd l hl

theorem unifiedDiffTagged_newline_free (a b : List String) (ff tf : String)
    (ha : ∀ l ∈ a, '\n' ∉ l.data) (hb : ∀ l ∈ b, '\n' ∉ l.data)
    (hff : '\n' ∉ ff.data) (htf : '\n' ∉ tf.data) :
    ∀ t ∈ unifiedDiffTagged a b ff tf, '\n' ∉ (renderTagged t).data := by
  intro t ht
  rcases unifiedDiffTagged_classes a b ff tf t ht with
    h | h | ⟨g, rfl⟩ | ⟨l, hl, hcd⟩ | ⟨l, hl, rfl⟩
  · subst h
    exact newline_not_mem_append_str "--- " ff (by decide) hff
  · subst h
    exact newline_not_mem_append_str "+++ " tf (by decide) htf
  · exact newline_not_mem_hunkHeader g
  · rcases hcd with rfl | rfl
    · exact newline_not_mem_append_str " " l (by decide) (ha l hl)
    · exact newline_not_mem_append_str "-" l (by decide) (ha l hl)
  · exact newline_not_mem_append_str "+" l (by decide) (hb l hl)

theorem parse_create_diff_counts (p oldC newC : String) (hp : '\n' ∉ p.data)
    (hAdd : ∀ l ∈ contentLines newC, strStartsWith l "++" = false)
    (hDel : ∀ l ∈ contentLines oldC, strStartsWith l "--" = false) :
    _parse_diff_stats (_create_diff p oldC newC) =
      (taggedAddCount (unifiedDiffTagged (contentLines oldC) (contentLines newC)
          ("a/" ++ p) ("b/" ++ p)),
       taggedDelCount (unifiedDiffTagged (contentLines oldC) (contentLines newC)
          ("a/" ++ p) ("b/" ++ p))) := by
  have hffn : '\n' ∉ ("a/" ++ p).data := newline_not_mem_append_str "a/" p (by decide) hp
  have htfn : '\n' ∉ ("b/" ++ p).data := newline_not_mem_append_str "b/" p (by decide) hp
  have hdg : ("diff --git a/" : String).data = 'd' :: "iff --git a/".data := rfl
  have hhead1 : lineAddCount ("diff --git a/" ++ p ++ " b/" ++ p) = 0 ∧
      lineDelCount ("diff --git a/" ++ p ++ " b/" ++ p) = 0 := by
    refine lineCounts_of_headChar _ 'd' ?_ (by decide) (by decide)
    simp only [String.data_append, hdg, List.cons_append, List.head?_cons]
  have hhead1n : '\n' ∉ ("diff --git a/" ++ p ++ " b/" ++ p).data := by
    refine newline_not_mem_append_str _ p ?_ hp
    refine newline_not_mem_append_str _ " b/" ?_ (by decide)
    exact newline_not_mem_append_str "diff --git a/" p (by decide) hp
  simp only [_create_diff, _parse_diff_stats]
  by_cases hDe :
      unifiedDiffTagged (contentLines oldC) (contentLines newC) ("a/" ++ p) ("b/" ++ p) = []
  · rw [hDe]
    simp only [List.map_nil, List.isEmpty_nil, if_true]
    decide
  · have hmapne :
        ((unifiedDiffTagged (contentLines oldC) (contentLines newC)
          ("a/" ++ p) ("b/" ++ p)).map renderTagged).isEmpty = false := by
      rcases hu : unifiedDiffTagged (contentLines oldC) (contentLines newC)
          ("a/" ++ p) ("b/" ++ p) with _ | ⟨t, ts⟩
      · exact absurd hu hDe
      · simp
    rw [hmapne]
    simp only [Bool.false_eq_true, if_false]
    have hfree : ∀ l ∈ ["diff --git a/" ++ p ++ " b/" ++ p] ++
        (if oldC = "" then ["new file mode 100644"]
         else if newC = "" then ["deleted file mode 100644"]
         else ["index 0000000..1111111 100644"]) ++
        (unifiedDiffTagged (contentLines oldC) (contentLines newC)
          ("a/" ++ p) ("b/" ++ p)).map renderTagged,
        '\n' ∉ l.data := by
      intro l hl
      rcases List.mem_append.mp hl with h1 | h2
      · rcases List.mem_append.mp h1 with h3 | h4
        · rw [List.mem_singleton] at h3
          exact h3 ▸ hhead1n
        · split at h4
          · rw [List.mem_singleton] at h4; subst h4; decide
          · split at h4
            · rw [List.mem_singleton] at h4; subst h4; decide
            · rw [List.mem_singleton] at h4; subst h4; decide
      · rcases List.mem_map.mp h2 with ⟨t, htD, rfl⟩
        exact unifiedDiffTagged_newline_free (contentLines oldC) (contentLines newC)
          ("a/" ++ p) ("b/" ++ p) (contentLines_newline_free oldC)
          (contentLines_newline_free newC) hffn htfn t htD
    rw [pySplitLines_pyJoinLines _ (by simp) hfree, parseDiffStatsLines_sum]
    have hsafe := unifiedDiffTagged_tagSafe (contentLines oldC) (contentLines newC)
      ("a/" ++ p) ("b/" ++ p) hAdd hDel
    have hc := counts_map_render _ hsafe
    have e1 : lineAddCount "new file mode 100644" = 0 := by decide
    have e2 : lineDelCount "new file mode 100644" = 0 := by decide
    have e3 : lineAddCount "deleted file mode 100644" = 0 := by decide
    have e4 : lineDelCount "deleted file mode 100644" = 0 := by decide
    have e5 : lineAddCount "index 0000000..1111111 100644" = 0 := by decide
    have e6 : lineDelCount "index 0000000..1111111 100644" = 0 := by decide
    simp only [List.map_append, List.sum_append, List.map_cons, List.map_nil,
      List.sum_cons, List.sum_nil, hhead1.1, hhead1.2, hc.1, hc.2]
    by_cases ho : oldC = ""
    · simp [ho, e1, e2]
    · by_cases hn : newC = ""
      · simp [ho, hn, e3, e4]
      · simp [ho, hn, e5, e6]

/-! ## The all-deletions diff -/

theorem lcsOps_nil_right (L : List String) : lcsOps L [] = L.map .del := by
  cases L with
  | nil => rfl
  | cons x xs => rfl

theorem opsToSingles_length : ∀ (ops : List DiffOp) (i j : Nat),
    (opsToSingles ops i j).length = ops.length := by
  intro ops
  induction ops with
  | nil => intro i j; rfl
  | cons o rest ih =>
    intro i j
    cases o <;> simp [opsToSingles, ih]

theorem coalesce_del_singles :
    ∀ (L : List String) (fuel a i c j : Nat), L.length ≤ fuel →
      coalesceFuel fuel (⟨false, a, i, c, j⟩ :: opsToSingles (L.map .del) i j) =
        [⟨false, a, i + L.length, c, j⟩] := by
  intro L
  induction L with
  | nil => intro fuel a i c j _; cases fuel <;> rfl
  | cons x xs ih =>
    intro fuel a i c j h
    cases fuel with
    | zero => simp at h
    | succ f =>
      have hle : xs.length ≤ f := by simp at h; omega
      show coalesceFuel (f + 1)
        (⟨false, a, i, c, j⟩ :: ⟨false, i, i + 1, j, j⟩ :: opsToSingles (xs.map .del) (i + 1) j) = _
      rw [coalesceFuel]
      rw [if_pos (show ((⟨false, a, i, c, j⟩ : Opcode).isEqual ==
        (⟨false, i, i + 1, j, j⟩ : Opcode).isEqual) = true from rfl)]
      show coalesceFuel f (⟨false, a, i + 1, c, j⟩ :: opsToSingles (xs.map .del) (i + 1) j) = _
      rw [ih f a (i + 1) c j hle]
      simp only [List.length_cons]
      rw [show i + 1 + xs.length = i + (xs.length + 1) from by omega]

theorem getOpcodes_nil_right (L : List String) (h : L ≠ []) :
    getOpcodes L [] = [⟨false, 0, L.length, 0, 0⟩] := by
  cases L with
  | nil => exact absurd rfl h
  | cons x xs =>
    unfold getOpcodes coalesce
    rw [lcsOps_nil_right]
    show coalesceFuel (opsToSingles ((x :: xs).map .del) 0 0).length
      (⟨false, 0, 1, 0, 0⟩ :: opsToSingles (xs.map .del) 1 0) = _
    rw [opsToSingles_length]
    rw [coalesce_del_singles xs (List.map DiffOp.del (x :: xs)).length 0 1 0 0 (by simp)]
    simp [Nat.add_comm]

theorem unifiedDiffTagged_nil_right (L : List String) (ff tf : String) (h : L ≠ []) :
    unifiedDiffTagged L [] ff tf =
      .fileHeadOld ff :: .fileHeadNew tf ::
        .hunkHead (hunkHeader [⟨false, 0, L.length, 0, 0⟩]) :: L.map .del := by
  have hlen : L.length ≠ 0 := by
    cases L with
    | nil => exact absurd rfl h
    | cons x xs => simp
  simp only [unifiedDiffTagged]
  rw [getOpcodes_nil_right L h]
  have hgroups : getGroupedOpcodes [⟨false, 0, L.length, 0, 0⟩] 3 =
      [[⟨false, 0, L.length, 0, 0⟩]] := by
    unfold getGroupedOpcodes trimFront trimBack groupLoop
    simp [groupLoop]
  rw [hgroups]
  simp only [List.isEmpty_cons, Bool.false_eq_true, if_false]
  simp [renderGroup, List.take_length]

theorem counts_unifiedDiff_nil_right (L : List String) (ff tf : String) :
    taggedAddCount (unifiedDiffTagged L [] ff tf) = 0 ∧
    taggedDelCount (unifiedDiffTagged L [] ff tf) = L.length := by
  by_cases h : L = []
  · subst h; exact ⟨rfl, rfl⟩
  · rw [unifiedDiffTagged_nil_right L ff tf h]
    unfold taggedAddCount taggedDelCount
    simp [isAddLine, isDelLine, List.filter_map, Function.comp]

theorem parse_create_diff_del (p prevC : String) (hp : '\n' ∉ p.data)
    (hprev : ∀ l ∈ contentLines prevC, strStartsWith l "--" = false) :
    _parse_diff_stats (_create_diff p prevC "") = (0, (contentLines prevC).length) := by
  have h0 : contentLines "" = ([] : List String) := rfl
  have h := parse_create_diff_counts p prevC "" hp
    (by intro l hl; rw [h0] at hl; simp at hl) hprev
  rw [h0] at h
  rw [h]
  have hc := counts_unifiedDiff_nil_right (contentLines prevC) ("a/" ++ p) ("b/" ++ p)
  rw [hc.1, hc.2]

/-! ## Manager registry -/

theorem findWatcher_update_ne (m : Manager) (id id' : String) (w : WatcherState)
    (h : id' ≠ id) : findWatcher (updateWatcher m id w) id' = findWatcher m id' := by
  unfold findWatcher updateWatcher
  induction m.watchers with
  | nil => rfl
  | cons p rest ih =>
    simp only [List.map_cons, List.find?_cons]
    by_cases hb : (p.1 == id) = true
    · have hp1 : p.1 = id := by simpa using hb
      have hne : ((id : String) == id') = false := by
        simp only [beq_eq_false_iff_ne]
        exact fun he => h (he.symm)
      have hne' : (p.1 == id') = false := by
        rw [hp1]; exact hne
      simp only [hb, if_true, hne, hne']
      exact ih
    · rw [Bool.not_eq_true] at hb
      simp only [hb, Bool.false_eq_true, if_false]
      by_cases hc : (p.1 == id') = true
      · simp [hc]
      · rw [Bool.not_eq_true] at hc
        simp only [hc]
        exact ih

theorem find_self_of_nodup :
    ∀ (l : List (String × WatcherState)), (l.map Prod.fst).Nodup →
      ∀ p ∈ l, l.find? (fun q => q.1 == p.1) = some p := by
  intro l
  induction l with
  | nil => intro _ p hp; simp at hp
  | cons hd rest ih =>
    intro hnd p hp
    simp only [List.map_cons, List.nodup_cons] at hnd
    rcases List.mem_cons.mp hp with rfl | hmem
    · simp [List.find?_cons]
    · have hne : (hd.1 == p.1) = false := by
        simp only [beq_eq_false_iff_ne]
        intro he
        exact hnd.1 (he ▸ List.mem_map.mpr ⟨p, hmem, rfl⟩)
      rw [List.find?_cons]
      simp only [hne]
      exact ih hnd.2 p hmem

theorem startAllGo_spec (env : String → Bool × List (String × String)) :
    ∀ (l : List (String × WatcherState)) (m : Manager),
      (∀ p ∈ l, findWatcher m p.1 = some p) → (l.map Prod.fst).Nodup →
      (startAllGo env (l.map Prod.fst) m).1 =
        l.map (fun p => (p.1, (start_watching (env p.1).1 (env p.1).2 p.2).1)) := by
  intro l
  induction l with
  | nil => intro m _ _; rfl
  | cons p rest ih =>
    intro m hfind hnd
    simp only [List.map_cons, List.nodup_cons] at hnd
    show ((p.1, (manager_start_watching env m p.1).1) ::
      (startAllGo env (rest.map Prod.fst) (manager_start_watching env m p.1).2).1) = _
    have hf := hfind p (List.mem_cons_self p rest)
    unfold manager_start_watching
    rw [hf]
    simp only [List.map_cons]
    congr 1
    refine ih (updateWatcher m p.1 (start_watching (env p.1).1 (env p.1).2 p.2).2) ?_ hnd.2
    intro q hq
    have hne : q.1 ≠ p.1 := by
      intro he
      exact hnd.1 (he ▸ List.mem_map.mpr ⟨q, hq, rfl⟩)
    rw [findWatcher_update_ne m p.1 q.1 _ hne]
    exact hfind q (List.mem_cons_of_mem p hq)

theorem start_all_spec (env : String → Bool × List (String × String)) (m : Manager)
    (hnd : (m.watchers.map Prod.fst).Nodup) :
    (start_all env m).1 =
      m.watchers.map (fun p => (p.1, (start_watching (env p.1).1 (env p.1).2 p.2).1)) := by
  unfold start_all
  refine startAllGo_spec env m.watchers m ?_ hnd
  intro p hp
  exact find_self_of_nodup m.watchers hnd p hp

/-! ## The delivery retry loop -/

theorem send_retries_eval (outcomes : Nat → AttemptOutcome) :
    _send_to_ai_with_retries outcomes =
      match terminalResult (outcomes 1) with
      | some b => ⟨1, [], b⟩
      | none =>
        match terminalResult (outcomes 2) with
        | some b => ⟨2, [2], b⟩
        | none =>
          match terminalResult (outcomes 3) with
          | some b => ⟨3, [2, 4], b⟩
          | none => ⟨3, [2, 4], false⟩ := by
  show sendLoop 3 outcomes 3 = _
  rcases h1 : terminalResult (outcomes 1) with _ | b1 <;>
    rcases h2 : terminalResult (outcomes 2) with _ | b2 <;>
      rcases h3 : terminalResult (outcomes 3) with _ | b3 <;>
        simp [sendLoop, h1, h2, h3]

/-! # Claim theorems -/

/-- C1 (counterexample): the claim's "a 2xx response marks the record Sent"
and "a 4xx response is terminal — exactly one attempt" are false on the code:
`_send_to_ai_with_retries` tests `status_code == 200` and `== 400` exactly,
so an HTTP 201 response never marks the record `Sent`, and an HTTP 404
response is retried for the full 3-attempt budget rather than aborting after
one attempt. -/
theorem C1_counterexample :
    (_send_change_to_ai .Pending (fun _ => .status 201)).1 = .Pending ∧
    (_send_change_to_ai .Pending (fun _ => .status 404)).2 = 3 := by
  exact ⟨rfl, rfl⟩

/-- C1 (amended): for every change record, delivery POSTs the payload at
most 3 times, sleeping 2 seconds after the first failed attempt and 4
seconds after the second; exactly HTTP 200 marks the record `Sent`; exactly
HTTP 400 is terminal — one attempt for that response, no further retry,
state stays `Pending`; every other outcome (timeout, connection error, any
other status, including other 2xx/3xx/4xx/5xx) is retried until the
3-attempt budget is exhausted, after which the state stays `Pending`.
Three consecutive HTTP 500 responses give exactly 3 attempts then `Pending`;
an HTTP 400 response gives exactly 1 attempt then `Pending`. -/
theorem C1_delivery_amended :
    (∀ outcomes, 1 ≤ (_send_to_ai_with_retries outcomes).attempts ∧
       (_send_to_ai_with_retries outcomes).attempts ≤ 3 ∧
       (_send_to_ai_with_retries outcomes).waits =
         [2, 4].take ((_send_to_ai_with_retries outcomes).attempts - 1)) ∧
    (∀ outcomes k, 1 ≤ k → k ≤ 3 → outcomes k = .status 200 →
       (∀ m, 1 ≤ m → m < k → terminalResult (outcomes m) = none) →
       _send_to_ai_with_retries outcomes = ⟨k, [2, 4].take (k - 1), true⟩ ∧
       (_send_change_to_ai .Pending outcomes).1 = .Sent) ∧
    (∀ outcomes k, 1 ≤ k → k ≤ 3 → outcomes k = .status 400 →
       (∀ m, 1 ≤ m → m < k → terminalResult (outcomes m) = none) →
       _send_to_ai_with_retries outcomes = ⟨k, [2, 4].take (k - 1), false⟩ ∧
       (_send_change_to_ai .Pending outcomes).1 = .Pending ∧
       (_send_change_to_ai .Pending outcomes).2 = k) ∧
    (∀ outcomes, (∀ m, 1 ≤ m → m ≤ 3 → terminalResult (outcomes m) = none) →
       _send_to_ai_with_retries outcomes = ⟨3, [2, 4], false⟩ ∧
       (_send_change_to_ai .Pending outcomes).1 = .Pending) ∧
    _send_change_to_ai .Pending (fun _ => .status 500) = (.Pending, 3) ∧
    _send_change_to_ai .Pending (fun _ => .status 400) = (.Pending, 1) := by
  refine ⟨?_, ?_, ?_, ?_, rfl, rfl⟩
  · intro oc
    rw [send_retries_eval oc]
    rcases terminalResult (oc 1) with _ | b1
    · rcases terminalResult (oc 2) with _ | b2
      · rcases terminalResult (oc 3) with _ | b3 <;> simp
      · simp
    · simp
  · intro oc k hk1 hk3 h200 hprev
    have hk : k = 1 ∨ k = 2 ∨ k = 3 := by omega
    rcases hk with rfl | rfl | rfl
    · have h1 : terminalResult (oc 1) = some true := by rw [h200]; rfl
      have hr : _send_to_ai_with_retries oc = ⟨1, [2, 4].take 0, true⟩ := by
        rw [send_retries_eval oc, h1]; rfl
      exact ⟨hr, by simp [_send_change_to_ai, hr]⟩
    · have h1 : terminalResult (oc 1) = none := hprev 1 (by omega) (by omega)
      have h2 : terminalResult (oc 2) = some true := by rw [h200]; rfl
      have hr : _send_to_ai_with_retries oc = ⟨2, [2, 4].take 1, true⟩ := by
        rw [send_retries_eval oc, h1, h2]; rfl
      exact ⟨hr, by simp [_send_change_to_ai, hr]⟩
    · have h1 : terminalResult (oc 1) = none := hprev 1 (by omega) (by omega)
      have h2 : terminalResult (oc 2) = none := hprev 2 (by omega) (by omega)
      have h3 : terminalResult (oc 3) = some true := by rw [h200]; rfl
      have hr : _send_to_ai_with_retries oc = ⟨3, [2, 4].take 2, true⟩ := by
        rw [send_retries_eval oc, h1, h2, h3]; rfl
      exact ⟨hr, by simp [_send_change_to_ai, hr]⟩
  · intro oc k hk1 hk3 h400 hprev
    have hk : k = 1 ∨ k = 2 ∨ k = 3 := by omega
    rcases hk with rfl | rfl | rfl
    · have h1 : terminalResult (oc 1) = some false := by rw [h400]; rfl
      have hr : _send_to_ai_with_retries oc = ⟨1, [2, 4].take 0, false⟩ := by
        rw [send_retries_eval oc, h1]; rfl
      exact ⟨hr, by simp [_send_change_to_ai, hr], by simp [_send_change_to_ai, hr]⟩
    · have h1 : terminalResult (oc 1) = none := hprev 1 (by omega) (by omega)
      have h2 : terminalResult (oc 2) = some false := by rw [h400]; rfl
      have hr : _send_to_ai_with_retries oc = ⟨2, [2, 4].take 1, false⟩ := by
        rw [send_retries_eval oc, h1, h2]; rfl
      exact ⟨hr, by simp [_send_change_to_ai, hr], by simp [_send_change_to_ai, hr]⟩
    · have h1 : terminalResult (oc 1) = none := hprev 1 (by omega) (by omega)
      have h2 : terminalResult (oc 2) = none := hprev 2 (by omega) (by omega)
      have h3 : terminalResult (oc 3) = some false := by rw [h400]; rfl
      have hr : _send_to_ai_with_retries oc = ⟨3, [2, 4].take 2, false⟩ := by
        rw [send_retries_eval oc, h1, h2, h3]; rfl
      exact ⟨hr, by simp [_send_change_to_ai, hr], by simp [_send_change_to_ai, hr]⟩
  · intro oc hall
    have h1 : terminalResult (oc 1) = none := hall 1 (by omega) (by omega)
    have h2 : terminalResult (oc 2) = none := hall 2 (by omega) (by omega)
    have h3 : terminalResult (oc 3) = none := hall 3 (by omega) (by omega)
    have hr : _send_to_ai_with_retries oc = ⟨3, [2, 4], false⟩ := by
      rw [send_retries_eval oc, h1, h2, h3]
    exact ⟨hr, by simp [_send_change_to_ai, hr]⟩

/-- C1 (witness): the amended theorem applied to the backend answering HTTP
400 on every attempt — exactly one POST, no waits, state stays Pending. -/
theorem C1_witness :
    _send_to_ai_with_retries (fun _ => .status 400) = ⟨1, [2, 4].take 0, false⟩ ∧
    (_send_change_to_ai .Pending (fun _ => .status 400)).1 = .Pending := by
  have h := C1_delivery_amended.2.2.1 (fun _ => .status 400) 1 (by omega) (by omega) rfl
    (fun m hm hlt => absurd (Nat.lt_of_le_of_lt hm hlt) (Nat.lt_irrefl 1))
  exact ⟨h.1, h.2.1⟩

/-- C2 (code_bug evidence): with the AI backend timing out on every attempt,
the per-event callback `handle_file_change` performs 3 network POSTs and
sleeps 2 then 4 seconds before returning — delivery runs synchronously on
the watcher's event-processing path, contradicting both the claim and the
code's own "runs in background" docstring. -/
theorem C2_callback_delivery_effects :
    Effect.networkPost ∈ handle_file_change_trace .Pending (fun _ => .timeout) ∧
    Effect.sleepSec 2 ∈ handle_file_change_trace .Pending (fun _ => .timeout) ∧
    Effect.sleepSec 4 ∈ handle_file_change_trace .Pending (fun _ => .timeout) ∧
    (handle_file_change_trace .Pending (fun _ => .timeout)).count Effect.networkPost = 3 := by
  decide

/-- C3: delivery state is monotone.  `_send_change_to_ai` on a `Sent` record
performs no POST and returns `Sent`; no delivery call turns a record's state
from `Sent` into `Pending`; and `process_unsent_changes` leaves every `Sent`
record `Sent` with zero POST attempts. -/
theorem C3_sent_monotone :
    (∀ outcomes, _send_change_to_ai .Sent outcomes = (.Sent, 0)) ∧
    (∀ st outcomes, (_send_change_to_ai st outcomes).1 = .Pending → st = .Pending) ∧
    (∀ recs limit i, i < recs.length → (recs.getD i default).1 = .Sent →
       (process_unsent_changes recs limit).getD i default = (.Sent, 0)) := by
  refine ⟨fun _ => rfl, ?_, ?_⟩
  · intro st oc h
    cases st with
    | Pending => rfl
    | Sent => simp [_send_change_to_ai] at h
  · intro recs limit i hi hsent
    unfold process_unsent_changes
    rw [List.getD_eq_getElem?_getD]
    simp only [List.getElem?_map, List.getElem?_range hi, Option.map_some', Option.getD_some]
    rw [hsent]
    by_cases hc : ((((List.range recs.length).filter
        (fun i => (recs.getD i default).1 == DeliveryState.Pending)).take limit).contains i) = true
    · rw [if_pos hc]; rfl
    · rw [if_neg hc]

/-- C3 (witness): a record already `Sent` passed through
`process_unsent_changes` stays `Sent` with zero POSTs. -/
theorem C3_witness :
    (process_unsent_changes [(DeliveryState.Sent, fun _ => AttemptOutcome.status 500)] 10).getD
      0 default = (DeliveryState.Sent, 0) :=
  C3_sent_monotone.2.2 [(DeliveryState.Sent, fun _ => AttemptOutcome.status 500)] 10 0
    (by simp) rfl

/-- C4 (counterexample): two divergences from the claim at concrete inputs.
First, with a *present but empty* snapshot entry for a modified path, the
code falls back to the `HEAD` content (Python truthiness of
`previous_content`), so the diff is taken against `"old line"` and not
against the snapshot entry `""` as the claim requires.  Second, on a read
failure the code returns an error sentinel and leaves the snapshot entry
unchanged, instead of treating the current content as empty and overwriting
the snapshot. -/
theorem C4_counterexample :
    ((_get_proper_diff "f" .modified true (.ok "new") (some "old line") (some "")).diff =
       _create_diff "f" "old line" "new") ∧
    ((_get_proper_diff "f" .modified true (.ok "new") (some "old line") (some "")).diff ≠
       _create_diff "f" "" "new") ∧
    (_get_proper_diff "f" .modified true (.error "io") (some "x") (some "snap") =
       ⟨"Error reading current file: io", some "snap"⟩) := by
  refine ⟨?_, ?_, rfl⟩ <;> decide

/-- C4 (amended): for a Created or Modified event on a path that still
exists on disk — if reading the current content fails, the result is the
read-error sentinel and the snapshot entry is left unchanged; otherwise the
previous content is the snapshot entry when present and *non-empty*, else —
only when the kind is not Created — the content at the last committed
revision (empty when absent there too), else empty; the snapshot entry is
then unconditionally overwritten with the current content, and the diff is
the sentinel "No actual changes detected" when previous equals current and
the unified diff of previous against current otherwise. -/
theorem C4_created_modified_amended (p : String) (ct : ChangeType)
    (head : Option String) (snap : Option String) (e cur : String)
    (hct : ct ≠ .deleted) :
    (_get_proper_diff p ct true (.error e) head snap =
       ⟨"Error reading current file: " ++ e, snap⟩) ∧
    ((_get_proper_diff p ct true (.ok cur) head snap).snap = some cur) ∧
    ((_get_proper_diff p ct true (.ok cur) head snap).diff =
       if previousContentAmended ct head snap = cur then "No actual changes detected"
       else _create_diff p (previousContentAmended ct head snap) cur) := by
  have hcond : (ct = ChangeType.deleted || !true) = false := by
    cases ct with
    | deleted => exact absurd rfl hct
    | created => rfl
    | modified => rfl
  have hprev : (if (snap.getD "" = "" && ct ≠ .created) then head.getD "" else snap.getD "") =
      previousContentAmended ct head snap := by
    unfold previousContentAmended
    cases snap with
    | none =>
      simp only [Option.getD_none]
      by_cases hc : ct = ChangeType.created
      · simp [hc]
      · simp [hc]
    | some prev =>
      simp only [Option.getD_some]
      by_cases hp : prev = ""
      · by_cases hc : ct = ChangeType.created
        · simp [hp, hc]
        · simp [hp, hc]
      · simp [hp]
  refine ⟨?_, ?_, ?_⟩
  · unfold _get_proper_diff
    rw [hcond]
    rfl
  · unfold _get_proper_diff
    rw [hcond]
    simp only [Bool.false_eq_true, if_false]
    split <;> split <;> rfl
  · unfold _get_proper_diff
    rw [hcond]
    simp only [Bool.false_eq_true, if_false]
    rw [← hprev]
    split <;> split <;> rfl

/-- C4 (witness): the amended theorem applied to a modified file with a
non-empty snapshot entry `"a"` and current content `"b"`: the diff is taken
against the snapshot entry and the entry is overwritten with `"b"`. -/
theorem C4_witness :
    (_get_proper_diff "g" .modified true (.ok "b") (some "x") (some "a")).snap = some "b" ∧
    (_get_proper_diff "g" .modified true (.ok "b") (some "x") (some "a")).diff =
      _create_diff "g" "a" "b" := by
  have h := C4_created_modified_amended "g" .modified (some "x") (some "a") "e" "b" (by decide)
  refine ⟨h.2.1, ?_⟩
  rw [h.2.2]
  decide

/-- C5 (counterexample): deleting a path whose snapshot entry is the single
line `"--x"` (N = 1).  The diff's previous side is the snapshot value, but
`_parse_diff_stats` reports `removed = 0`, not `N = 1`: the rendered removal
line `---x` is excluded by the `startswith('---')` header test. -/
theorem C5_counterexample :
    (_get_proper_diff "f" .deleted false (.ok "") none (some "--x")).diff =
      _create_diff "f" "--x" "" ∧
    _parse_diff_stats (_get_proper_diff "f" .deleted false (.ok "") none (some "--x")).diff =
      (0, 0) ∧
    (contentLines "--x").length = 1 := by
  decide

/-- C5 (amended): a Deleted event for a path with no snapshot entry yields
the "no prior snapshot" sentinel; a Deleted event for a path whose snapshot
entry splits into N lines, *none of which begins with `--`*, yields a diff
whose previous side is the snapshot value with `lines_removed = N` and
`lines_added = 0`, and the snapshot entry is removed afterwards.  (A line
beginning with `--` renders as `--…` with the removal marker and is
miscounted as a `---` header.) -/
theorem C5_deleted_amended (p prevC : String) (pathExists : Bool)
    (rd : Except String String) (head : Option String)
    (hp : '\n' ∉ p.data)
    (hprev : ∀ l ∈ contentLines prevC, strStartsWith l "--" = false) :
    (_get_proper_diff p .deleted pathExists rd head none =
       ⟨"File deleted (no previous snapshot available)", none⟩) ∧
    ((_get_proper_diff p .deleted pathExists rd head (some prevC)).snap = none) ∧
    ((_get_proper_diff p .deleted pathExists rd head (some prevC)).diff =
       _create_diff p prevC "") ∧
    (_parse_diff_stats (_get_proper_diff p .deleted pathExists rd head (some prevC)).diff =
       (0, (contentLines prevC).length)) := by
  have hdel : ((ChangeType.deleted = ChangeType.deleted || !pathExists) = true) := by simp
  refine ⟨?_, ?_, ?_, ?_⟩
  · unfold _get_proper_diff
    rw [if_pos hdel]
  · unfold _get_proper_diff
    rw [if_pos hdel]
  · unfold _get_proper_diff
    rw [if_pos hdel]
  · unfold _get_proper_diff
    rw [if_pos hdel]
    exact parse_create_diff_del p prevC hp hprev

/-- C5 (witness): the amended theorem applied to a deleted path whose
snapshot entry holds the two lines `l1` and `l2`. -/
theorem C5_witness :
    (_get_proper_diff "d.txt" .deleted true (.ok "") none (some "l1\nl2")).snap = none ∧
    _parse_diff_stats
      (_get_proper_diff "d.txt" .deleted true (.ok "") none (some "l1\nl2")).diff = (0, 2) := by
  have h := C5_deleted_amended "d.txt" "l1\nl2" true (.ok "") none (by decide) (by decide)
  exact ⟨h.2.1, by rw [h.2.2.2]; decide⟩

/-- C6 (counterexample): stopping a running watcher does not clear the
snapshot map — the map is untouched by `stop_watching`, contradicting the
claim's "clears the snapshot map". -/
theorem C6_counterexample :
    ((stop_watching true ⟨true, true, true, [("a.py", "print(1)")]⟩).2.1.snapshots =
       [("a.py", "print(1)")]) ∧
    ((stop_watching true ⟨true, true, true, [("a.py", "print(1)")]⟩).2.1.snapshots ≠ []) := by
  decide

/-- C6 (amended): `stop_watching` on a running watcher returns `True`,
detaches the observer and handler, transitions to Stopped, uses the bounded
5-second join when an observer is attached, proceeds identically whatever
the join outcome — but leaves the snapshot map exactly as it was; on a
watcher that is not running it returns `True` and changes nothing
(idempotent). -/
theorem C6_stop_amended (w : WatcherState) (j j' : Bool) :
    (w.isRunning = false → stop_watching j w = (true, w, none)) ∧
    (w.isRunning = true →
       (stop_watching j w).1 = true ∧
       (stop_watching j w).2.1.isRunning = false ∧
       (stop_watching j w).2.1.hasObserver = false ∧
       (stop_watching j w).2.1.hasHandler = false ∧
       (stop_watching j w).2.1.snapshots = w.snapshots ∧
       (stop_watching j w).2.2 = (if w.hasObserver then some 5 else none)) ∧
    stop_watching j w = stop_watching j' w := by
  unfold stop_watching
  refine ⟨?_, ?_, rfl⟩
  · intro h
    rw [h]
    rfl
  · intro h
    rw [h]
    exact ⟨rfl, rfl, rfl, rfl, rfl, rfl⟩

/-- C6 (witness): the amended theorem applied to a stopped watcher — stop
is a no-op returning true. -/
theorem C6_witness :
    stop_watching true ⟨false, false, true, [("k", "v")]⟩ =
      (true, ⟨false, false, true, [("k", "v")]⟩, none) :=
  (C6_stop_amended ⟨false, false, true, [("k", "v")]⟩ true false).1 rfl

/-- C7 (counterexample): for {X: valid tree, Y: missing path}, `add` reports
failure for Y and stores nothing, so `start_all` returns the map
{X: true} with no entry for Y at all — not the claimed {X: true, Y: false}. -/
theorem C7_counterexample :
    (add_repository (add_repository ⟨[]⟩ "X" true).2 "Y" false).1 = false ∧
    ((start_all (fun _ => (false, []))
        (add_repository (add_repository ⟨[]⟩ "X" true).2 "Y" false).2).1.find?
      (fun p => p.1 == "Y")) = none ∧
    (start_all (fun _ => (false, []))
        (add_repository (add_repository ⟨[]⟩ "X" true).2 "Y" false).2).1 =
      [("X", true)] := by
  decide

/-- C7 (amended): `start_all` applies `start_watching` independently to
every registered entry — under the registry invariant of distinct ids, each
entry's outcome in the returned map is a function of that entry's own
watcher and environment alone — and the map covers exactly the registered
ids.  For {X: valid tree, Y: missing path}: add(X) succeeds, add(Y) returns
false leaving the registry unchanged and Y's watcher is never constructed
(`mkRepoWatcher false = none`), `start_all` yields the map {X: true} with no
entry for Y, and X transitions to Running. -/
theorem C7_start_all_amended (env : String → Bool × List (String × String)) (m : Manager)
    (hnd : (m.watchers.map Prod.fst).Nodup) :
    ((start_all env m).1 =
       m.watchers.map (fun p => (p.1, (start_watching (env p.1).1 (env p.1).2 p.2).1))) ∧
    (add_repository ⟨[]⟩ "X" true).1 = true ∧
    (add_repository (add_repository ⟨[]⟩ "X" true).2 "Y" false).1 = false ∧
    (add_repository (add_repository ⟨[]⟩ "X" true).2 "Y" false).2 =
      (add_repository ⟨[]⟩ "X" true).2 ∧
    mkRepoWatcher false = none ∧
    (start_all (fun _ => (false, []))
        (add_repository (add_repository ⟨[]⟩ "X" true).2 "Y" false).2).1 =
      [("X", true)] ∧
    (findWatcher (start_all (fun _ => (false, []))
        (add_repository (add_repository ⟨[]⟩ "X" true).2 "Y" false).2).2 "X").map
      (fun p => p.2.isRunning) = some true := by
  exact ⟨start_all_spec env m hnd, by decide, by decide, by decide, rfl, by decide, by decide⟩

/-- C7 (witness): the amended theorem applied to a one-entry registry. -/
theorem C7_witness :
    (start_all (fun _ => (false, [])) ⟨[("A", ⟨false, false, false, []⟩)]⟩).1 =
      [("A", true)] := by
  have h := (C7_start_all_amended (fun _ => (false, []))
    ⟨[("A", ⟨false, false, false, []⟩)]⟩ (by decide)).1
  rw [h]
  decide

/-- C8 (counterexample): for contents `""` → `"++x"` the diff body holds
exactly one genuine insertion line, but its rendering `+++x` is excluded by
the `startswith('+++')` test, so `_parse_diff_stats` counts 0 additions —
header exclusion is by incidental prefix matching, not explicit
classification. -/
theorem C8_counterexample :
    (_parse_diff_stats (_create_diff "f" "" "++x")).1 = 0 ∧
    taggedAddCount (unifiedDiffTagged (contentLines "") (contentLines "++x")
      ("a/" ++ "f") ("b/" ++ "f")) = 1 := by
  decide

/-- C8 (amended): for every pair of contents (with a newline-free relative
path) in which no line of the new content begins with `++` and no line of
the old content begins with `--`, the `lines_added`/`lines_removed` counts
of `_parse_diff_stats` equal the numbers of genuine insertion and removal
lines of the unified-diff body; the header lines are excluded only by
`+++`/`---` prefix matching, which miscounts body lines beginning with
`++` or `--`. -/
theorem C8_diff_stats_amended (p oldC newC : String) (hp : '\n' ∉ p.data)
    (hAdd : ∀ l ∈ contentLines newC, strStartsWith l "++" = false)
    (hDel : ∀ l ∈ contentLines oldC, strStartsWith l "--" = false) :
    _parse_diff_stats (_create_diff p oldC newC) =
      (taggedAddCount (unifiedDiffTagged (contentLines oldC) (contentLines newC)
          ("a/" ++ p) ("b/" ++ p)),
       taggedDelCount (unifiedDiffTagged (contentLines oldC) (contentLines newC)
          ("a/" ++ p) ("b/" ++ p))) :=
  parse_create_diff_counts p oldC newC hp hAdd hDel

/-- C8 (witness): the amended theorem applied to the one-line replacement
`"a"` → `"b"`. -/
theorem C8_witness :
    _parse_diff_stats (_create_diff "w.py" "a" "b") =
      (taggedAddCount (unifiedDiffTagged (contentLines "a") (contentLines "b")
          ("a/" ++ "w.py") ("b/" ++ "w.py")),
       taggedDelCount (unifiedDiffTagged (contentLines "a") (contentLines "b")
          ("a/" ++ "w.py") ("b/" ++ "w.py"))) :=
  C8_diff_stats_amended "w.py" "a" "b" (by decide) (by decide) (by decide)

/-- C9 (counterexample): the path `home/user/distribution/notes.txt` is
ignored by the code — the segment `distribution` *contains* the block-list
entry `dist` as a substring — although no segment equals a block-list entry,
the extension `.txt` is not blocked, and the name is not dot-prefixed, so
the claim's predicate says it must not be ignored. -/
theorem C9_counterexample :
    should_ignore_file ["home", "user", "distribution", "notes.txt"] = true ∧
    ¬ ((∃ part ∈ (["home", "user", "distribution", "notes.txt"] : List String),
          part ∈ ignoredPatterns) ∨
       pySuffix "notes.txt" ∈ ignoredExtensions ∨
       (strStartsWith "notes.txt" "." = true ∧
          pySuffix "notes.txt" ∉ hiddenAllowedExtensions)) := by
  decide

/-- C9 (amended): `should_ignore_file` is a pure predicate returning true
exactly when some path segment *contains* a block-list entry as a substring,
or the entry's extension is in the transient/binary block-list, or the entry
name is dot-prefixed and its extension is not in the source-file allow-list;
for every other path it returns false. -/
theorem C9_should_ignore_amended (parts : List String) :
    should_ignore_file parts = true ↔
      ((∃ part ∈ parts, ∃ pat ∈ ignoredPatterns, strContains part pat = true) ∨
       pySuffix (parts.getLastD "") ∈ ignoredExtensions ∨
       (strStartsWith (parts.getLastD "") "." = true ∧
          pySuffix (parts.getLastD "") ∉ hiddenAllowedExtensions)) := by
  unfold should_ignore_file
  by_cases h1 :
      (parts.any (fun part => ignoredPatterns.any (fun pat => strContains part pat))) = true
  · simp only [h1, if_true, true_iff]
    left
    rcases List.any_eq_true.mp h1 with ⟨part, hmem, hpart⟩
    rcases List.any_eq_true.mp hpart with ⟨pat, hpmem, hc⟩
    exact ⟨part, hmem, pat, hpmem, hc⟩
  · have h1' : ¬ (∃ part ∈ parts, ∃ pat ∈ ignoredPatterns, strContains part pat = true) := by
      intro ⟨part, hmem, pat, hpmem, hc⟩
      exact h1 (List.any_eq_true.mpr ⟨part, hmem, List.any_eq_true.mpr ⟨pat, hpmem, hc⟩⟩)
    rw [Bool.not_eq_true] at h1
    simp only [h1, Bool.false_eq_true, if_false]
    by_cases h2 : (ignoredExtensions.contains (pySuffix (parts.getLastD ""))) = true
    · simp only [h2, if_true, true_iff]
      exact Or.inr (Or.inl (List.elem_iff.mp h2))
    · have h2' : pySuffix (parts.getLastD "") ∉ ignoredExtensions := by
        intro hmem
        exact h2 (List.elem_iff.mpr hmem)
      rw [Bool.not_eq_true] at h2
      simp only [h2, Bool.false_eq_true, if_false]
      by_cases h3 : (strStartsWith (parts.getLastD "") "." &&
          !(hiddenAllowedExtensions.contains (pySuffix (parts.getLastD "")))) = true
      · simp only [h3, if_true, true_iff]
        have h3' := h3
        simp only [Bool.and_eq_true, Bool.not_eq_true'] at h3'
        rcases h3' with ⟨h3a, h3b⟩
        refine Or.inr (Or.inr ⟨h3a, ?_⟩)
        intro hmem
        have hcon : hiddenAllowedExtensions.contains (pySuffix (parts.getLastD "")) = true :=
          List.elem_iff.mpr hmem
        rw [h3b] at hcon
        exact Bool.false_ne_true hcon
      · rw [Bool.not_eq_true] at h3
        simp only [h3, Bool.false_eq_true, if_false, false_iff]
        intro hor
        rcases hor with hA | hB | hC
        · exact h1' hA
        · exact h2' hB
        · rcases hC with ⟨hCa, hCb⟩
          have hb : (hiddenAllowedExtensions.contains (pySuffix (parts.getLastD ""))) = false := by
            rcases hcon : hiddenAllowedExtensions.contains (pySuffix (parts.getLastD "")) with _ | _
            · rfl
            · exact absurd (List.elem_iff.mp hcon) hCb
          rw [hCa, hb] at h3
          simp at h3

/-- C9 (witness): the amended theorem applied to `src/x.pyc`, ignored via
its extension. -/
theorem C9_witness : should_ignore_file ["src", "x.pyc"] = true :=
  (C9_should_ignore_amended ["src", "x.pyc"]).mpr (Or.inr (Or.inl (by decide)))

/-- C10: `add_repository` on an id that is already registered returns true
immediately for any validity of the new path — no new watcher is
constructed, the path is never validated, and the registry (with the
original watcher entry) is unchanged. -/
theorem C10_add_existing_id (m : Manager) (id : String) (validRepo : Bool)
    (w : String × WatcherState) (h : findWatcher m id = some w) :
    add_repository m id validRepo = (true, m) ∧
    findWatcher (add_repository m id validRepo).2 id = some w := by
  unfold add_repository
  rw [h]
  exact ⟨rfl, h⟩

/-- C10 (witness): re-adding a registered id with an invalid path still
returns true and leaves the registry unchanged. -/
theorem C10_witness :
    add_repository ⟨[("R", ⟨false, false, false, []⟩)]⟩ "R" false =
      (true, ⟨[("R", ⟨false, false, false, []⟩)]⟩) :=
  (C10_add_existing_id ⟨[("R", ⟨false, false, false, []⟩)]⟩ "R" false
    ("R", ⟨false, false, false, []⟩) (by decide)).1
